import Mathlib

/-!
Verification of the simplexsolve package (simplex method for LP maximization).

The Go source is shallowly embedded here: the gonum `mat.Dense` tableau becomes a
list of rows of rationals (`float64` arithmetic is modelled exactly over `ℚ`),
in-place row mutation becomes explicit state passing, and Go panics (in
particular gonum's out-of-range `Dense.At` access, which occurs in `pivotIdxs`
when `negMinIdx` returns -1 and the code evaluates `t.At(r, -1)`) are modelled
as `none` of an `Option` result.  The unguarded `for !t.isSolved()` loop of
`Solve` is modelled with an explicit fuel parameter.
-/

/-- Constraint mirrors the Go struct: coefficients of the left hand side of a
less-than-or-equal inequality plus the right hand side scalar. -/
structure Constraint where
  coefficients : List ℚ
  rightHandSide : ℚ
deriving DecidableEq

/-- Objective mirrors the Go type `Objective []float64`. -/
abbrev Objective := List ℚ

/-- Tableau mirrors the Go struct wrapping a gonum `mat.Dense`: a dense matrix
represented as its list of rows. -/
structure Tableau where
  rows : List (List ℚ)
deriving DecidableEq

/-- Number of rows, the first component of `t.Dims()`. -/
def nrs (t : Tableau) : Nat := t.rows.length

/-- Number of columns, the second component of `t.Dims()` (a `mat.Dense` is
rectangular, so the first row's length is the column count). -/
def ncs (t : Tableau) : Nat := (t.rows.headD []).length

/-- Row `i` of the tableau, as returned by `t.RawRowView(i)` / `t.RowView(i)`. -/
def rowView (t : Tableau) (i : Nat) : List ℚ := t.rows.getD i []

/-- Entry `(i, j)` of the tableau, as returned by `t.At(i, j)` for in-range
indices. -/
def At (t : Tableau) (i j : Nat) : ℚ := (rowView t i).getD j 0

/-- In-place row assignment `t.SetRow(i, row)`. -/
def SetRow (t : Tableau) (i : Nat) (row : List ℚ) : Tableau := ⟨t.rows.set i row⟩

/-- Go `zipWithFloats`: pointwise combination of two slices (all call sites use
slices of equal length). -/
def zipWithFloats (fn : ℚ → ℚ → ℚ) (sl1 sl2 : List ℚ) : List ℚ :=
  List.zipWith fn sl1 sl2

/-- Go `mapFloats`. -/
def mapFloats (fn : ℚ → ℚ) (sl : List ℚ) : List ℚ := sl.map fn

/-- Go `scaleSlice`: scales all elements of a slice by `s`. -/
def scaleSlice (sl : List ℚ) (s : ℚ) : List ℚ :=
  mapFloats (fun v => v * s) sl

/-- Go `addSlices`: adds corresponding elements of two slices. -/
def addSlices (sl1 sl2 : List ℚ) : List ℚ :=
  zipWithFloats (fun u v => u + v) sl1 sl2

/-- The slack slice built in `NewTableau`: `make([]float64, m)` with entry `i`
set to 1. -/
def slack (m i : Nat) : List ℚ :=
  (List.range m).map (fun j => if j = i then 1 else 0)

/-- Go `NewTableau`: errors when some constraint's coefficient count differs
from the objective's (the Go loop returns on the first offender; the resulting
error value is the same); otherwise builds the `(m+1) x (n+m+1)` matrix whose
row `i` is `coefficients_i ++ slack_i ++ [rhs_i]` and whose last row is the
objective coefficients followed by `m+1` zeros (the Go code appends `o`
unchanged, with no sign flip). -/
def NewTableau (cs : List Constraint) (o : Objective) : Except String Tableau :=
  if cs.all (fun c => c.coefficients.length == o.length) then
    .ok ⟨(cs.enum.map
            (fun p => p.2.coefficients ++ slack cs.length p.1 ++ [p.2.rightHandSide]))
          ++ [o ++ List.replicate (cs.length + 1) 0]⟩
  else .error "coefficient vectors must be of equal length"

/-- Go `isSolved`: scans the whole objective row `t.RawRowView(nrs-1)`
(including the right-hand-side column) and returns false as soon as some entry
is negative. -/
def isSolved (t : Tableau) : Bool :=
  (rowView t (nrs t - 1)).all (fun v => !decide (v < 0))

/-- One iteration of the `negMinIdx` loop: state is the running `(mi, mv)`
pair, where `none` stands for the initial `mi = -1`. -/
def negMinStep (vec : List ℚ) (st : Option Nat × ℚ) (i : Nat) : Option Nat × ℚ :=
  if vec.getD i 0 < st.2 then (some i, vec.getD i 0) else st

/-- Go `negMinIdx`: index of the strictly most negative value among the first
`len - 1` entries of the vector (`none` models the Go result -1). -/
def negMinIdx (vec : List ℚ) : Option Nat :=
  ((List.range (vec.length - 1)).foldl (negMinStep vec) (none, 0)).1

/-- The quotient `t.At(r, ncs-1) / t.At(r, pc)` computed in the `pivotIdxs` row
loop. -/
def rquot (t : Tableau) (r pc : Nat) : ℚ := At t r (ncs t - 1) / At t r pc

/-- A constraint row is eligible for the ratio test when its pivot-column entry
is non-zero and its ratio is strictly positive (`q < minq && q > 0` with the
division skipped when the entry is zero). -/
def elig (t : Tableau) (pc r : Nat) : Prop := At t r pc ≠ 0 ∧ 0 < rquot t r pc

instance (t : Tableau) (pc r : Nat) : Decidable (elig t pc r) := by
  unfold elig; infer_instance

/-- One iteration of the `pivotIdxs` row loop: state is the running
`(pr, minq)` pair, with `none` for the initial `pr = -1` and for the initial
`minq = math.MaxFloat64` (no finite quotient accepted yet; in exact arithmetic
the comparison `q < math.MaxFloat64` always holds on the first acceptance). -/
def rowStep (t : Tableau) (pc : Nat) (st : Option Nat × Option ℚ) (r : Nat) :
    Option Nat × Option ℚ :=
  if At t r pc = 0 then st
  else
    match st.2 with
    | none => if 0 < rquot t r pc then (some r, some (rquot t r pc)) else st
    | some m =>
        if rquot t r pc < m ∧ 0 < rquot t r pc then (some r, some (rquot t r pc))
        else st

/-- The pivot-row half of Go `pivotIdxs`, given a non-negative pivot column:
first constraint row attaining the minimum strictly positive ratio, `none`
modelling `pr = -1`. -/
def pivotRowIdx (t : Tableau) (pc : Nat) : Option Nat :=
  ((List.range (nrs t - 1)).foldl (rowStep t pc) (none, none)).1

/-- Go `pivotIdxs`, returning the `(pr, pc)` pair.  When `negMinIdx` yields -1
and at least one constraint row exists, the Go loop evaluates `t.At(r, -1)`,
an out-of-range access on `mat.Dense` that panics: modelled as the outer
`none`.  With no constraint rows the loop body never runs and the Go function
returns `(-1, -1)`, i.e. `some (none, none)`. -/
def pivotIdxs (t : Tableau) : Option (Option Nat × Option Nat) :=
  match negMinIdx (rowView t (nrs t - 1)) with
  | some pc => some (pivotRowIdx t pc, some pc)
  | none => if nrs t ≤ 1 then some (none, none) else none

/-- Go `isUnbounded`: true when `pivotIdxs` reports no pivot row (`pr < 0`);
`none` propagates the out-of-range panic inside `pivotIdxs`. -/
def isUnbounded (t : Tableau) : Option Bool :=
  (pivotIdxs t).map (fun p => p.1.isNone)

/-- Go `scalePivotRow`: scales the pivot row by the reciprocal of the pivot
element. -/
def scalePivotRow (t : Tableau) (pr pc : Nat) : Tableau :=
  SetRow t pr (scaleSlice (rowView t pr) (1 / At t pr pc))

/-- One iteration of the `elimRows` loop: `pivrow` is the row view of the pivot
row captured before the loop (the pivot row itself is never written inside the
loop, so the captured view stays equal to it). -/
def elimStep (pivrow : List ℚ) (pr pc : Nat) (acc : Tableau) (i : Nat) : Tableau :=
  if i = pr then acc
  else SetRow acc i (addSlices (rowView acc i) (scaleSlice pivrow (-(At acc i pc))))

/-- Go `elimRows`: for each row other than the pivot row, adds the pivot row
scaled by the negated pivot-column entry, zeroing that column. -/
def elimRows (t : Tableau) (pr pc : Nat) : Tableau :=
  (List.range (nrs t)).foldl (elimStep (rowView t pr) pr pc) t

/-- Go `scaleAndElim`: one simplex iteration.  `none` models the panics on an
out-of-range pivot index (`pr = -1` or `pc = -1`, which `Solve` never feeds
into it). -/
def scaleAndElim (t : Tableau) : Option Tableau :=
  match pivotIdxs t with
  | some (some pr, some pc) => some (elimRows (scalePivotRow t pr pc) pr pc)
  | _ => none

/-- Result of `Solve`: normal return (`nil` error) or the `ERR_UNBOUNDED`
return. -/
inductive SolveResult where
  | ok
  | unbounded
deriving DecidableEq

/-- Go `Solve`, with fuel bounding the number of loop iterations (the Go loop
is unguarded); `none` means the fuel ran out or a panic occurred.  Each
iteration re-evaluates `isSolved`, then `isUnbounded`, then pivots via
`scaleAndElim`, exactly as the Go loop does. -/
def Solve (fuel : Nat) (t : Tableau) : Option (SolveResult × Tableau) :=
  match fuel with
  | 0 => if isSolved t then some (.ok, t) else none
  | fuel + 1 =>
    if isSolved t then some (.ok, t)
    else
      match isUnbounded t with
      | none => none
      | some true => some (.unbounded, t)
      | some false =>
        match scaleAndElim t with
        | none => none
        | some t2 => Solve fuel t2

/-- The two pre-allocated error values `ERR_UNSOLVED` and `ERR_UNBOUNDED`. -/
inductive SimplexErr where
  | unsolved
  | unbounded
deriving DecidableEq

/-- Go `ReadSoln`: returns `ERR_UNSOLVED` when `isSolved` fails, otherwise
consults `isUnbounded` (whose `pivotIdxs` call performs the out-of-range
`t.At(r, -1)` access whenever the tableau is solved and has a constraint row:
that panic is the outer `none`); on success reads, for each of the
`ncs - nrs` structural columns, the right-hand side of the first constraint
row whose entry in that column equals 1 (default 0), plus the objective row's
right-hand side. -/
def ReadSoln (t : Tableau) : Option (Except SimplexErr (List ℚ × ℚ)) :=
  if !isSolved t then some (.error .unsolved)
  else
    match isUnbounded t with
    | none => none
    | some true => some (.error .unbounded)
    | some false =>
      let nvs := ncs t - nrs t
      let vals := (List.range nvs).map (fun j =>
        match (List.range (nrs t - 1)).find? (fun i => decide (At t i j = 1)) with
        | some i => At t i (ncs t - 1)
        | none => 0)
      some (.ok (vals, At t (nrs t - 1) (ncs t - 1)))

/-- Rectangularity invariant of a `mat.Dense`: every row has the column
count's length. -/
def Rect (t : Tableau) : Prop := ∀ row ∈ t.rows, row.length = ncs t

instance (t : Tableau) : Decidable (Rect t) := by
  unfold Rect; infer_instance

/-- The terminal tableau that `TestSolve`/`TestReadSoln` expect for the basic
LP (exact rationals for the decimal entries of the test). -/
def solvedBasicLP : Tableau :=
  ⟨[[0, 0, 1, -2/5, 1/5, 2],
    [1, 0, 0, 1/4, -1/4, 5],
    [0, 1, 0, -1/10, 3/10, 6],
    [0, 0, 0, 1/5, 2/5, 28]]⟩

/-- The terminal tableau that `TestSolve`/`TestReadSoln` expect for the
unbounded LP. -/
def unboundedTerminal : Tableau :=
  ⟨[[0, 0, 0, 1, -2, 2],
    [1, -1/2, 1/2, 0, 1/2, 1/2],
    [0, -7/2, 13/2, 0, 3/2, 3/2]]⟩

/-- Decidable equality for `Except`, used to evaluate claims on concrete
inputs. -/
instance {ε α : Type} [DecidableEq ε] [DecidableEq α] : DecidableEq (Except ε α) := fun x y =>
  match x, y with
  | .ok a, .ok b =>
      if h : a = b then .isTrue (by rw [h]) else .isFalse (fun e => by cases e; exact h rfl)
  | .ok _, .error _ => .isFalse (fun e => by cases e)
  | .error _, .ok _ => .isFalse (fun e => by cases e)
  | .error e, .error f =>
      if h : e = f then .isTrue (by rw [h]) else .isFalse (fun e => by cases e; exact h rfl)

theorem getD_set_self {α : Type} (l : List α) (i : Nat) (a d : α) (h : i < l.length) :
    (l.set i a).getD i d = a := by
  induction l generalizing i with
  | nil => simp at h
  | cons x xs ih =>
    cases i with
    | zero => rfl
    | succ n => simpa using ih n (by simpa using h)

theorem getD_set_ne {α : Type} (l : List α) (i j : Nat) (a d : α) (h : j ≠ i) :
    (l.set i a).getD j d = l.getD j d := by
  induction l generalizing i j with
  | nil => rfl
  | cons x xs ih =>
    cases i with
    | zero =>
      cases j with
      | zero => exact absurd rfl h
      | succ m => rfl
    | succ n =>
      cases j with
      | zero => rfl
      | succ m => exact ih n m (fun e => h (by rw [e]))

theorem set_of_length_le {α : Type} (l : List α) (i : Nat) (a : α) (h : l.length ≤ i) :
    l.set i a = l := by
  induction l generalizing i with
  | nil => rfl
  | cons x xs ih =>
    cases i with
    | zero => simp at h
    | succ n => simpa using ih n (by simpa using h)

theorem getD_map_lt {α β : Type} (f : α → β) (l : List α) (i : Nat) (d : β) (d' : α)
    (h : i < l.length) : (l.map f).getD i d = f (l.getD i d') := by
  induction l generalizing i with
  | nil => simp at h
  | cons x xs ih =>
    cases i with
    | zero => rfl
    | succ n => simpa using ih n (by simpa using h)

theorem getD_zipWith_lt {α β γ : Type} (f : α → β → γ) (l1 : List α) (l2 : List β) (i : Nat)
    (d : γ) (d1 : α) (d2 : β) (h1 : i < l1.length) (h2 : i < l2.length) :
    (List.zipWith f l1 l2).getD i d = f (l1.getD i d1) (l2.getD i d2) := by
  induction l1 generalizing l2 i with
  | nil => simp at h1
  | cons x xs ih =>
    cases l2 with
    | nil => simp at h2
    | cons y ys =>
      cases i with
      | zero => rfl
      | succ n => simpa using ih ys n (by simpa using h1) (by simpa using h2)

theorem getD_append_length {α : Type} (l1 l2 : List α) (a d : α) :
    ((l1 ++ a :: l2).getD l1.length d) = a := by
  induction l1 with
  | nil => rfl
  | cons x xs ih => simpa using ih

theorem getD_mem_of_lt {α : Type} (l : List α) (i : Nat) (d : α) (h : i < l.length) :
    l.getD i d ∈ l := by
  induction l generalizing i with
  | nil => simp at h
  | cons x xs ih =>
    cases i with
    | zero => exact List.mem_cons_self x xs
    | succ n => exact List.mem_cons_of_mem x (ih n (by simpa using h))

/-- Loop invariant of `negMinIdx`: after scanning the first `k` entries the
state is either still the initial one (no negative entry seen) or holds the
first index attaining the strict minimum among the scanned entries, that
minimum being negative. -/
theorem negMinAux_spec (vec : List ℚ) (k : Nat) :
    ((List.range k).foldl (negMinStep vec) (none, 0) = (none, 0) ∧
      ∀ i, i < k → ¬vec.getD i 0 < 0) ∨
    (∃ j, j < k ∧
      (List.range k).foldl (negMinStep vec) (none, 0) = (some j, vec.getD j 0) ∧
      vec.getD j 0 < 0 ∧ (∀ i, i < k → vec.getD j 0 ≤ vec.getD i 0) ∧
      ∀ i, i < j → vec.getD j 0 < vec.getD i 0) := by
  induction k with
  | zero => exact Or.inl ⟨rfl, fun i hi => absurd hi (Nat.not_lt_zero i)⟩
  | succ k ih =>
    rw [List.range_succ, List.foldl_append, List.foldl_cons, List.foldl_nil]
    rcases ih with ⟨heq, hall⟩ | ⟨j, hj, heq, hneg, hmin, hstrict⟩
    · rw [heq]
      by_cases hk : vec.getD k 0 < 0
      · refine Or.inr ⟨k, Nat.lt_succ_self k, ?_, hk, ?_, ?_⟩
        · simp only [negMinStep]; exact if_pos hk
        · intro i hi
          rcases Nat.lt_succ_iff_lt_or_eq.1 hi with h | h
          · exact le_trans (le_of_lt hk) (not_lt.1 (hall i h))
          · rw [h]
        · intro i hi
          exact lt_of_lt_of_le hk (not_lt.1 (hall i hi))
      · refine Or.inl ⟨?_, ?_⟩
        · simp only [negMinStep]; exact if_neg hk
        · intro i hi
          rcases Nat.lt_succ_iff_lt_or_eq.1 hi with h | h
          · exact hall i h
          · rw [h]; exact hk
    · rw [heq]
      by_cases hk : vec.getD k 0 < vec.getD j 0
      · refine Or.inr ⟨k, Nat.lt_succ_self k, ?_, lt_trans hk hneg, ?_, ?_⟩
        · simp only [negMinStep]; exact if_pos hk
        · intro i hi
          rcases Nat.lt_succ_iff_lt_or_eq.1 hi with h | h
          · exact le_trans (le_of_lt hk) (hmin i h)
          · rw [h]
        · intro i hi
          exact lt_of_lt_of_le hk (hmin i hi)
      · refine Or.inr ⟨j, lt_trans hj (Nat.lt_succ_self k), ?_, hneg, ?_, hstrict⟩
        · simp only [negMinStep]; exact if_neg hk
        · intro i hi
          rcases Nat.lt_succ_iff_lt_or_eq.1 hi with h | h
          · exact hmin i h
          · rw [h]; exact not_lt.1 hk

/-- `negMinIdx` returns -1 exactly when no scanned entry is negative. -/
theorem negMinIdx_eq_none_iff (vec : List ℚ) :
    negMinIdx vec = none ↔ ∀ i, i < vec.length - 1 → ¬vec.getD i 0 < 0 := by
  unfold negMinIdx
  rcases negMinAux_spec vec (vec.length - 1) with ⟨heq, hall⟩ | ⟨j, hj, heq, hneg, _, _⟩
  · rw [heq]; simpa using hall
  · rw [heq]
    simp only [iff_iff_implies_and_implies]
    constructor
    · intro h; cases h
    · intro h; exact absurd hneg (h j hj)

/-- When `negMinIdx` returns an index, that index is the first occurrence of
the strictly most negative entry among the first `len - 1` entries. -/
theorem negMinIdx_eq_some_spec (vec : List ℚ) (j : Nat) (h : negMinIdx vec = some j) :
    j < vec.length - 1 ∧ vec.getD j 0 < 0 ∧
      (∀ i, i < vec.length - 1 → vec.getD j 0 ≤ vec.getD i 0) ∧
      ∀ i, i < j → vec.getD j 0 < vec.getD i 0 := by
  unfold negMinIdx at h
  rcases negMinAux_spec vec (vec.length - 1) with ⟨heq, _⟩ | ⟨p, hp, heq, hneg, hmin, hstrict⟩
  · rw [heq] at h; cases h
  · rw [heq] at h
    simp only [Option.some.injEq] at h
    rw [← h]
    exact ⟨hp, hneg, hmin, hstrict⟩

/-- Loop invariant of the `pivotIdxs` row loop: after scanning the first `k`
constraint rows the state is either still the initial one (no eligible row
seen) or holds the first row attaining the strict minimum positive ratio. -/
theorem rowAux_spec (t : Tableau) (pc k : Nat) :
    ((List.range k).foldl (rowStep t pc) (none, none) = (none, none) ∧
      ∀ r, r < k → ¬elig t pc r) ∨
    (∃ pr, pr < k ∧
      (List.range k).foldl (rowStep t pc) (none, none) = (some pr, some (rquot t pr pc)) ∧
      elig t pc pr ∧
      (∀ r, r < k → elig t pc r → rquot t pr pc ≤ rquot t r pc) ∧
      ∀ r, r < pr → elig t pc r → rquot t pr pc < rquot t r pc) := by
  induction k with
  | zero => exact Or.inl ⟨rfl, fun r hr => absurd hr (Nat.not_lt_zero r)⟩
  | succ k ih =>
    rw [List.range_succ, List.foldl_append, List.foldl_cons, List.foldl_nil]
    rcases ih with ⟨heq, hall⟩ | ⟨pr, hpr, heq, helig, hmin, hstrict⟩
    · rw [heq]
      by_cases hz : At t k pc = 0
      · refine Or.inl ⟨?_, ?_⟩
        · simp only [rowStep]; exact if_pos hz
        · intro r hr
          rcases Nat.lt_succ_iff_lt_or_eq.1 hr with h | h
          · exact hall r h
          · rw [h]; exact fun he => he.1 hz
      · by_cases hq : 0 < rquot t k pc
        · refine Or.inr ⟨k, Nat.lt_succ_self k, ?_, ⟨hz, hq⟩, ?_, ?_⟩
          · simp only [rowStep]; rw [if_neg hz]; exact if_pos hq
          · intro r hr hre
            rcases Nat.lt_succ_iff_lt_or_eq.1 hr with h | h
            · exact absurd hre (hall r h)
            · rw [h]
          · intro r hr hre
            exact absurd hre (hall r hr)
        · refine Or.inl ⟨?_, ?_⟩
          · simp only [rowStep]; rw [if_neg hz]; exact if_neg hq
          · intro r hr
            rcases Nat.lt_succ_iff_lt_or_eq.1 hr with h | h
            · exact hall r h
            · rw [h]; exact fun he => hq he.2
    · rw [heq]
      by_cases hz : At t k pc = 0
      · refine Or.inr ⟨pr, lt_trans hpr (Nat.lt_succ_self k), ?_, helig, ?_, hstrict⟩
        · simp only [rowStep]; exact if_pos hz
        · intro r hr hre
          rcases Nat.lt_succ_iff_lt_or_eq.1 hr with h | h
          · exact hmin r h hre
          · rw [h] at hre; exact absurd hre.1 (not_not.2 hz)
      · by_cases hq : rquot t k pc < rquot t pr pc ∧ 0 < rquot t k pc
        · refine Or.inr ⟨k, Nat.lt_succ_self k, ?_, ⟨hz, hq.2⟩, ?_, ?_⟩
          · simp only [rowStep]; rw [if_neg hz]; exact if_pos hq
          · intro r hr hre
            rcases Nat.lt_succ_iff_lt_or_eq.1 hr with h | h
            · exact le_trans (le_of_lt hq.1) (hmin r h hre)
            · rw [h]
          · intro r hr hre
            exact lt_of_lt_of_le hq.1 (hmin r hr hre)
        · refine Or.inr ⟨pr, lt_trans hpr (Nat.lt_succ_self k), ?_, helig, ?_, hstrict⟩
          · simp only [rowStep]; rw [if_neg hz]; exact if_neg hq
          · intro r hr hre
            rcases Nat.lt_succ_iff_lt_or_eq.1 hr with h | h
            · exact hmin r h hre
            · rw [h] at hre ⊢
              rcases not_and_or.1 hq with hn | hn
              · exact not_lt.1 hn
              · exact absurd hre.2 hn

/-- The row loop reports -1 exactly when no constraint row is eligible. -/
theorem pivotRowIdx_eq_none_iff (t : Tableau) (pc : Nat) :
    pivotRowIdx t pc = none ↔ ∀ r, r < nrs t - 1 → ¬elig t pc r := by
  unfold pivotRowIdx
  rcases rowAux_spec t pc (nrs t - 1) with ⟨heq, hall⟩ | ⟨pr, hpr, heq, helig, _, _⟩
  · rw [heq]; simpa using hall
  · rw [heq]
    simp only [iff_iff_implies_and_implies]
    constructor
    · intro h; cases h
    · intro h; exact absurd helig (h pr hpr)

/-- When the row loop reports a row, it is the first constraint row attaining
the minimum strictly positive ratio. -/
theorem pivotRowIdx_eq_some_spec (t : Tableau) (pc pr : Nat)
    (h : pivotRowIdx t pc = some pr) :
    pr < nrs t - 1 ∧ elig t pc pr ∧
      (∀ r, r < nrs t - 1 → elig t pc r → rquot t pr pc ≤ rquot t r pc) ∧
      ∀ r, r < pr → elig t pc r → rquot t pr pc < rquot t r pc := by
  unfold pivotRowIdx at h
  rcases rowAux_spec t pc (nrs t - 1) with ⟨heq, _⟩ | ⟨p, hp, heq, helig, hmin, hstrict⟩
  · rw [heq] at h; cases h
  · rw [heq] at h
    simp only [Option.some.injEq] at h
    rw [← h]
    exact ⟨hp, helig, hmin, hstrict⟩

theorem nrs_SetRow (t : Tableau) (i : Nat) (row : List ℚ) :
    nrs (SetRow t i row) = nrs t := by
  simp [nrs, SetRow]

theorem rowView_SetRow_self (t : Tableau) (i : Nat) (row : List ℚ) (h : i < nrs t) :
    rowView (SetRow t i row) i = row :=
  getD_set_self t.rows i row [] h

theorem rowView_SetRow_ne (t : Tableau) (i j : Nat) (row : List ℚ) (h : j ≠ i) :
    rowView (SetRow t i row) j = rowView t j :=
  getD_set_ne t.rows i j row [] h

theorem SetRow_of_le (t : Tableau) (i : Nat) (row : List ℚ) (h : nrs t ≤ i) :
    SetRow t i row = t := by
  unfold SetRow
  rw [set_of_length_le t.rows i row h]

theorem At_eq_getD_rowView (t : Tableau) (i j : Nat) :
    At t i j = (rowView t i).getD j 0 := rfl

/-- Row lengths are preserved by one `elimStep` fold. -/
theorem elimAux_nrs (pivrow : List ℚ) (pr pc : Nat) (t : Tableau) (l : List Nat) :
    nrs (l.foldl (elimStep pivrow pr pc) t) = nrs t := by
  induction l generalizing t with
  | nil => rfl
  | cons x xs ih =>
    rw [List.foldl_cons, ih]
    unfold elimStep
    by_cases hx : x = pr
    · rw [if_pos hx]
    · rw [if_neg hx, nrs_SetRow]

theorem elimStep_eq_of_eq (pivrow : List ℚ) (pr pc : Nat) (acc : Tableau) (k : Nat)
    (h : k = pr) : elimStep pivrow pr pc acc k = acc := by
  unfold elimStep
  rw [if_pos h]

theorem elimStep_eq_of_ne (pivrow : List ℚ) (pr pc : Nat) (acc : Tableau) (k : Nat)
    (h : ¬k = pr) :
    elimStep pivrow pr pc acc k =
      SetRow acc k (addSlices (rowView acc k) (scaleSlice pivrow (-(At acc k pc)))) := by
  unfold elimStep
  rw [if_neg h]

/-- Effect of the elimination fold on each row: the rows visited so far, other
than the pivot row, have had the scaled captured pivot row added; all other
rows are untouched. -/
theorem elimAux_rowView (pivrow : List ℚ) (pr pc : Nat) (t : Tableau) (k : Nat) (i : Nat) :
    rowView ((List.range k).foldl (elimStep pivrow pr pc) t) i =
      if i < k ∧ i ≠ pr ∧ i < nrs t
      then addSlices (rowView t i) (scaleSlice pivrow (-(At t i pc)))
      else rowView t i := by
  induction k generalizing i with
  | zero =>
    rw [if_neg]
    · rfl
    · intro h
      exact absurd h.1 (Nat.not_lt_zero i)
  | succ k ih =>
    rw [List.range_succ, List.foldl_append, List.foldl_cons, List.foldl_nil]
    by_cases hk : k = pr
    · rw [elimStep_eq_of_eq _ _ _ _ _ hk, ih i]
      by_cases hc : i < k ∧ i ≠ pr ∧ i < nrs t
      · rw [if_pos hc, if_pos ⟨lt_trans hc.1 (Nat.lt_succ_self k), hc.2⟩]
      · rw [if_neg hc, if_neg]
        intro h
        rcases Nat.lt_succ_iff_lt_or_eq.1 h.1 with h1 | h1
        · exact hc ⟨h1, h.2⟩
        · rw [h1] at h
          exact h.2.1 hk
    · rw [elimStep_eq_of_ne _ _ _ _ _ hk]
      have hrvk : rowView ((List.range k).foldl (elimStep pivrow pr pc) t) k = rowView t k := by
        rw [ih k, if_neg]
        intro h
        exact absurd h.1 (lt_irrefl k)
      have hAtk : At ((List.range k).foldl (elimStep pivrow pr pc) t) k pc = At t k pc := by
        rw [At_eq_getD_rowView, hrvk, At_eq_getD_rowView]
      by_cases hik : i = k
      · subst hik
        by_cases hlen : i < nrs t
        · rw [rowView_SetRow_self _ _ _ (by rw [elimAux_nrs]; exact hlen)]
          rw [hrvk, hAtk, if_pos ⟨Nat.lt_succ_self i, fun e => hk e, hlen⟩]
        · rw [SetRow_of_le _ _ _ (by rw [elimAux_nrs]; exact not_lt.1 hlen), ih i]
          rw [if_neg, if_neg]
          · intro h
            exact hlen h.2.2
          · intro h
            exact hlen h.2.2
      · rw [rowView_SetRow_ne _ _ _ _ hik, ih i]
        by_cases hc : i < k ∧ i ≠ pr ∧ i < nrs t
        · rw [if_pos hc, if_pos ⟨lt_trans hc.1 (Nat.lt_succ_self k), hc.2⟩]
        · rw [if_neg hc, if_neg]
          intro h
          rcases Nat.lt_succ_iff_lt_or_eq.1 h.1 with h1 | h1
          · exact hc ⟨h1, h.2⟩
          · exact hik h1

/-- Effect of `elimRows` on each row. -/
theorem elimRows_rowView (t : Tableau) (pr pc : Nat) (i : Nat) :
    rowView (elimRows t pr pc) i =
      if i ≠ pr ∧ i < nrs t
      then addSlices (rowView t i) (scaleSlice (rowView t pr) (-(At t i pc)))
      else rowView t i := by
  unfold elimRows
  rw [elimAux_rowView]
  by_cases hc : i ≠ pr ∧ i < nrs t
  · rw [if_pos ⟨hc.2, hc⟩, if_pos hc]
  · rw [if_neg, if_neg hc]
    intro h
    exact hc ⟨h.2.1, h.2.2⟩

theorem length_scaleSlice (b : List ℚ) (c : ℚ) : (scaleSlice b c).length = b.length := by
  unfold scaleSlice mapFloats
  exact List.length_map b _

theorem getD_scaleSlice (b : List ℚ) (c : ℚ) (j : Nat) (h : j < b.length) :
    (scaleSlice b c).getD j 0 = b.getD j 0 * c := by
  unfold scaleSlice mapFloats
  exact getD_map_lt _ b j 0 0 h

theorem getD_addSlices (a b : List ℚ) (j : Nat) (ha : j < a.length) (hb : j < b.length) :
    (addSlices a b).getD j 0 = a.getD j 0 + b.getD j 0 := by
  unfold addSlices zipWithFloats
  exact getD_zipWith_lt _ a b j 0 0 0 ha hb

theorem rowView_mem (t : Tableau) (i : Nat) (h : i < nrs t) : rowView t i ∈ t.rows :=
  getD_mem_of_lt t.rows i [] h

/-- The length of any in-range row of a rectangular tableau is the column
count. -/
theorem length_rowView (t : Tableau) (i : Nat) (hrect : Rect t) (h : i < nrs t) :
    (rowView t i).length = ncs t :=
  hrect _ (rowView_mem t i h)

/-- C6: for every tableau and row/column pair `(r, c)` whose entry `(r, c)` is
non-zero, after one pivot (`scalePivotRow(r, c)` followed by `elimRows(r, c)`,
in exact arithmetic) the entry at `(r, c)` equals 1 and the entry at `(i, c)`
equals 0 for every other row `i`. -/
theorem c6_pivot_correct (t : Tableau) (pr pc : Nat) (hrect : Rect t)
    (hpr : pr < nrs t) (hpc : pc < ncs t) (hpe : At t pr pc ≠ 0) :
    At (elimRows (scalePivotRow t pr pc) pr pc) pr pc = 1 ∧
      ∀ i, i < nrs t → i ≠ pr → At (elimRows (scalePivotRow t pr pc) pr pc) i pc = 0 := by
  have hlenpr : (rowView t pr).length = ncs t := length_rowView t pr hrect hpr
  have hnrs1 : nrs (scalePivotRow t pr pc) = nrs t := nrs_SetRow t pr _
  have hrv1pr : rowView (scalePivotRow t pr pc) pr = scaleSlice (rowView t pr) (1 / At t pr pc) :=
    rowView_SetRow_self t pr _ hpr
  have hAt1 : At (scalePivotRow t pr pc) pr pc = 1 := by
    rw [At_eq_getD_rowView, hrv1pr, getD_scaleSlice _ _ _ (by rw [hlenpr]; exact hpc)]
    rw [← At_eq_getD_rowView, one_div]
    exact mul_inv_cancel₀ hpe
  constructor
  · rw [At_eq_getD_rowView, elimRows_rowView, if_neg (fun h => h.1 rfl)]
    rw [← At_eq_getD_rowView]
    exact hAt1
  · intro i hi hne
    have hrv1i : rowView (scalePivotRow t pr pc) i = rowView t i :=
      rowView_SetRow_ne t pr i _ hne
    have hAt1i : At (scalePivotRow t pr pc) i pc = At t i pc := by
      rw [At_eq_getD_rowView, hrv1i, At_eq_getD_rowView]
    rw [At_eq_getD_rowView, elimRows_rowView, if_pos ⟨hne, by rw [hnrs1]; exact hi⟩]
    rw [getD_addSlices _ _ _
        (by rw [hrv1i, length_rowView t i hrect hi]; exact hpc)
        (by rw [length_scaleSlice, hrv1pr, length_scaleSlice, hlenpr]; exact hpc)]
    rw [getD_scaleSlice _ _ _ (by rw [hrv1pr, length_scaleSlice, hlenpr]; exact hpc)]
    rw [← At_eq_getD_rowView, ← At_eq_getD_rowView, hAt1, hAt1i]
    ring

/-- C5: for every tableau whose objective row has at least one negative
coefficient entry, `pivotIdxs` selects as pivot column the first occurrence of
the most negative objective-row entry (right-hand-side column excluded), and
as pivot row the first constraint row attaining the minimum strictly positive
ratio `rhs[r] / entry[r][pc]` among rows with a non-zero pivot-column entry;
the row is `none` (Go -1, reported by `Solve` as unbounded) exactly when no
constraint row has a strictly positive ratio. -/
theorem c5_pivotIdxs_spec (t : Tableau)
    (hrow : (rowView t (nrs t - 1)).length = ncs t)
    (hneg : ∃ j, j < ncs t - 1 ∧ At t (nrs t - 1) j < 0) :
    ∃ pc, pivotIdxs t = some (pivotRowIdx t pc, some pc) ∧
      pc < ncs t - 1 ∧ At t (nrs t - 1) pc < 0 ∧
      (∀ j, j < ncs t - 1 → At t (nrs t - 1) pc ≤ At t (nrs t - 1) j) ∧
      (∀ j, j < pc → At t (nrs t - 1) pc < At t (nrs t - 1) j) ∧
      (pivotRowIdx t pc = none ↔ ∀ r, r < nrs t - 1 → ¬elig t pc r) ∧
      ∀ pr, pivotRowIdx t pc = some pr →
        pr < nrs t - 1 ∧ elig t pc pr ∧
        (∀ r, r < nrs t - 1 → elig t pc r → rquot t pr pc ≤ rquot t r pc) ∧
        ∀ r, r < pr → elig t pc r → rquot t pr pc < rquot t r pc := by
  obtain ⟨j, hj, hjneg⟩ := hneg
  cases hmi : negMinIdx (rowView t (nrs t - 1)) with
  | none =>
    exfalso
    exact (negMinIdx_eq_none_iff _).1 hmi j (by rw [hrow]; exact hj) hjneg
  | some pc =>
    obtain ⟨hlt, hneg', hmin, hstrict⟩ := negMinIdx_eq_some_spec _ pc hmi
    refine ⟨pc, ?_, ?_, hneg', ?_, hstrict,
      pivotRowIdx_eq_none_iff t pc, fun pr h => pivotRowIdx_eq_some_spec t pc pr h⟩
    · unfold pivotIdxs
      rw [hmi]
    · rw [hrow] at hlt
      exact hlt
    · intro j2 hj2
      exact hmin j2 (by rw [hrow]; exact hj2)

/-- Witness for C5 at the unbounded-LP terminal tableau of the repo's tests. -/
theorem c5_pivotIdxs_spec_witness :
    ∃ pc, pivotIdxs unboundedTerminal = some (pivotRowIdx unboundedTerminal pc, some pc) ∧
      pc < ncs unboundedTerminal - 1 ∧
      At unboundedTerminal (nrs unboundedTerminal - 1) pc < 0 ∧
      (∀ j, j < ncs unboundedTerminal - 1 →
        At unboundedTerminal (nrs unboundedTerminal - 1) pc ≤
          At unboundedTerminal (nrs unboundedTerminal - 1) j) ∧
      (∀ j, j < pc →
        At unboundedTerminal (nrs unboundedTerminal - 1) pc <
          At unboundedTerminal (nrs unboundedTerminal - 1) j) ∧
      (pivotRowIdx unboundedTerminal pc = none ↔
        ∀ r, r < nrs unboundedTerminal - 1 → ¬elig unboundedTerminal pc r) ∧
      ∀ pr, pivotRowIdx unboundedTerminal pc = some pr →
        pr < nrs unboundedTerminal - 1 ∧ elig unboundedTerminal pc pr ∧
        (∀ r, r < nrs unboundedTerminal - 1 → elig unboundedTerminal pc r →
          rquot unboundedTerminal pr pc ≤ rquot unboundedTerminal r pc) ∧
        ∀ r, r < pr → elig unboundedTerminal pc r →
          rquot unboundedTerminal pr pc < rquot unboundedTerminal r pc :=
  c5_pivotIdxs_spec unboundedTerminal (by with_unfolding_all decide)
    ⟨1, by with_unfolding_all decide, by with_unfolding_all decide⟩

/-- Witness for C6 on a concrete 2x2 tableau, pivoting on entry (0, 1). -/
theorem c6_pivot_correct_witness :
    At (elimRows (scalePivotRow ⟨[[2,4],[6,8]]⟩ 0 1) 0 1) 0 1 = 1 ∧
      ∀ i, i < nrs ⟨[[2,4],[6,8]]⟩ → i ≠ 0 →
        At (elimRows (scalePivotRow ⟨[[2,4],[6,8]]⟩ 0 1) 0 1) i 1 = 0 :=
  c6_pivot_correct ⟨[[2,4],[6,8]]⟩ 0 1 (by with_unfolding_all decide)
    (by decide) (by decide) (by with_unfolding_all decide)

/-- C7 (counterexample): a tableau whose only negative objective-row entry sits
in the right-hand-side column; the claim says `isSolved` is true there, but
the code scans the whole row and answers false. -/
theorem c7_counterexample :
    (∀ j, j < ncs ⟨[[1,1,1],[0,0,-1]]⟩ - 1 →
      ¬At ⟨[[1,1,1],[0,0,-1]]⟩ (nrs ⟨[[1,1,1],[0,0,-1]]⟩ - 1) j < 0) ∧
    isSolved ⟨[[1,1,1],[0,0,-1]]⟩ = false := by
  with_unfolding_all decide

/-- C7 (amended): `isSolved` is true iff no entry of the whole objective row,
the right-hand-side column included, is negative. -/
theorem c7_isSolved_iff (t : Tableau) :
    isSolved t = true ↔ ∀ v ∈ rowView t (nrs t - 1), ¬v < 0 := by
  unfold isSolved
  rw [List.all_eq_true]
  constructor
  · intro h v hv
    simpa using h v hv
  · intro h v hv
    simpa using h v hv

/-- C9: `NewTableau` fails with the dimension-mismatch error exactly when some
constraint's coefficient count differs from the objective's, and otherwise
returns a tableau with no error. -/
theorem c9_dimension_check (cs : List Constraint) (o : Objective) :
    ((∃ c ∈ cs, c.coefficients.length ≠ o.length) →
      NewTableau cs o = .error "coefficient vectors must be of equal length") ∧
    ((∀ c ∈ cs, c.coefficients.length = o.length) →
      ∃ t, NewTableau cs o = .ok t) := by
  constructor
  · rintro ⟨c, hc, hlen⟩
    have hnall : ¬cs.all (fun c => c.coefficients.length == o.length) = true := by
      intro hall
      rw [List.all_eq_true] at hall
      exact hlen (by simpa using hall c hc)
    unfold NewTableau
    rw [if_neg hnall]
  · intro h
    have hall : cs.all (fun c => c.coefficients.length == o.length) = true := by
      rw [List.all_eq_true]
      intro c hc
      simpa using h c hc
    exact ⟨_, by unfold NewTableau; rw [if_pos hall]⟩

/-- Witness for C9: one mismatched and one matching concrete call. -/
theorem c9_dimension_check_witness :
    NewTableau [⟨[1,2],3⟩] [5] = .error "coefficient vectors must be of equal length" ∧
      ∃ t, NewTableau [⟨[1,2],3⟩] [4,5] = .ok t :=
  ⟨(c9_dimension_check [⟨[1,2],3⟩] [5]).1
      ⟨⟨[1,2],3⟩, by simp, by with_unfolding_all decide⟩,
   (c9_dimension_check [⟨[1,2],3⟩] [4,5]).2 (by with_unfolding_all decide)⟩

/-- C10: `Solve` on a tableau that already satisfies `isSolved` returns no
error and leaves every entry unchanged, performing no pivot, whatever the
fuel. -/
theorem c10_solve_noop (t : Tableau) (h : isSolved t = true) (fuel : Nat) :
    Solve fuel t = some (SolveResult.ok, t) := by
  cases fuel with
  | zero => simp [Solve, h]
  | succ n => simp [Solve, h]

/-- Witness for C10 on a concrete solved tableau. -/
theorem c10_solve_noop_witness :
    Solve 5 ⟨[[1,2],[0,3]]⟩ = some (SolveResult.ok, ⟨[[1,2],[0,3]]⟩) :=
  c10_solve_noop ⟨[[1,2],[0,3]]⟩ (by with_unfolding_all decide) 5

/-- C2 (counterexample): with objective `[1]` and constraint `[2] <= 4`, the
built tableau's objective row is `[1, 0, 0]`, not the negated
`[-1] ++ zeros` the claim demands. -/
theorem c2_counterexample :
    NewTableau [⟨[2], 4⟩] [1] = Except.ok ⟨[[2,1,4],[1,0,0]]⟩ ∧
      rowView ⟨[[2,1,4],[1,0,0]]⟩ (nrs ⟨[[2,1,4],[1,0,0]]⟩ - 1) ≠
        [(-1 : ℚ)] ++ List.replicate 2 0 := by
  with_unfolding_all decide

/-- C2 (amended): with matching coefficient counts, the tableau returned by
`NewTableau` has its last (objective) row equal to the objective coefficients
exactly as given (no negation) followed by `m+1` zeros. -/
theorem c2_objective_row (cs : List Constraint) (o : Objective)
    (h : ∀ c ∈ cs, c.coefficients.length = o.length) :
    ∃ t, NewTableau cs o = .ok t ∧
      rowView t (nrs t - 1) = o ++ List.replicate (cs.length + 1) 0 := by
  have hall : cs.all (fun c => c.coefficients.length == o.length) = true := by
    rw [List.all_eq_true]
    intro c hc
    simpa using h c hc
  refine ⟨⟨(cs.enum.map
      (fun (p : Nat × Constraint) => p.2.coefficients ++ slack cs.length p.1 ++ [p.2.rightHandSide]))
      ++ [o ++ List.replicate (cs.length + 1) 0]⟩, ?_, ?_⟩
  · unfold NewTableau
    rw [if_pos hall]
  · show ((cs.enum.map
        (fun (p : Nat × Constraint) => p.2.coefficients ++ slack cs.length p.1 ++ [p.2.rightHandSide]))
        ++ [o ++ List.replicate (cs.length + 1) 0]).getD
        (((cs.enum.map
          (fun (p : Nat × Constraint) => p.2.coefficients ++ slack cs.length p.1 ++ [p.2.rightHandSide]))
          ++ [o ++ List.replicate (cs.length + 1) 0]).length - 1) [] = _
    rw [List.length_append, List.length_map, List.enum_length]
    simp only [List.length_singleton, Nat.add_sub_cancel]
    have := getD_append_length
      (cs.enum.map (fun (p : Nat × Constraint) => p.2.coefficients ++ slack cs.length p.1 ++ [p.2.rightHandSide]))
      [] (o ++ List.replicate (cs.length + 1) 0) []
    rw [List.length_map, List.enum_length] at this
    exact this

/-- Witness for C2's amended statement on a concrete instance. -/
theorem c2_objective_row_witness :
    ∃ t, NewTableau [⟨[2], 4⟩] [1] = .ok t ∧
      rowView t (nrs t - 1) =
        [(1 : ℚ)] ++ List.replicate (List.length [(⟨[2], 4⟩ : Constraint)] + 1) 0 :=
  c2_objective_row [⟨[2], 4⟩] [1] (by with_unfolding_all decide)

/-- C1: evaluation of the the pipeline on end-to-end example 1.  `NewTableau`
copies the objective `[2,3]` into the last row without negation, so `Solve`
immediately reports success without pivoting, and `ReadSoln` hits the
out-of-range access (`none`).  Even under the tests' convention of passing the
negated objective `[-2,-3]`, `Solve` reaches the expected optimal tableau but
`ReadSoln` on that solved tableau again hits the out-of-range access instead
of returning `([5,6], 28)`. -/
theorem c1_end_to_end_eval :
    NewTableau [⟨[2,1],18⟩, ⟨[6,5],60⟩, ⟨[2,5],40⟩] [2,3] =
      Except.ok ⟨[[2,1,1,0,0,18],[6,5,0,1,0,60],[2,5,0,0,1,40],[2,3,0,0,0,0]]⟩ ∧
    Solve 10 ⟨[[2,1,1,0,0,18],[6,5,0,1,0,60],[2,5,0,0,1,40],[2,3,0,0,0,0]]⟩ =
      some (SolveResult.ok,
        ⟨[[2,1,1,0,0,18],[6,5,0,1,0,60],[2,5,0,0,1,40],[2,3,0,0,0,0]]⟩) ∧
    ReadSoln ⟨[[2,1,1,0,0,18],[6,5,0,1,0,60],[2,5,0,0,1,40],[2,3,0,0,0,0]]⟩ = none ∧
    Solve 10 ⟨[[2,1,1,0,0,18],[6,5,0,1,0,60],[2,5,0,0,1,40],[-2,-3,0,0,0,0]]⟩ =
      some (SolveResult.ok, solvedBasicLP) := by
  with_unfolding_all decide

/-- C3: the solved tableau of the repo's own `TestReadSoln` is optimal (no
negative objective-row coefficient), yet `ReadSoln` does not return a
solution: it reaches the out-of-range `t.At(r, -1)` access inside
`isUnbounded`/`pivotIdxs` (modelled `none`) instead of `([5,6], 28)`. -/
theorem c3_readsoln_out_of_range :
    isSolved solvedBasicLP = true ∧
      (∀ j, j < ncs solvedBasicLP - 1 →
        ¬At solvedBasicLP (nrs solvedBasicLP - 1) j < 0) ∧
      ReadSoln solvedBasicLP = none := by
  with_unfolding_all decide

/-- C4: the unbounded-state terminal tableau of the repo's own tests (negative
objective coefficient present, no positive-ratio row, `isUnbounded` true)
makes `ReadSoln` return the Unsolved error, not the Unbounded error the claim
and the test expect, because `isSolved` is consulted first and fails on the
negative coefficient. -/
theorem c4_unbounded_state_error :
    isUnbounded unboundedTerminal = some true ∧
      ReadSoln unboundedTerminal = some (Except.error SimplexErr.unsolved) := by
  with_unfolding_all decide
